import Mathlib

/-!
Shallow embedding of the torcap client (`app.py`) and the ingest endpoint of
`tor_server.py`, with theorems about the retention, pending-queue, upload and
driver-loop behaviour.

Modelling conventions:
* The local filesystem under the capture root is a list of `FsFile` records
  (path, last-modified time, size in bytes).  `folder.rglob` enumeration is
  the list itself.
* Python floats: `get_folder_size_mb` divides a byte total by `1024*1024`;
  we model the value exactly in `ℚ` (division by a power of two is exact for
  file sizes far below 2^53, so the float computation agrees with `ℚ` here).
* `list.sort(key=...)` is Python's stable sort; it is modelled by the stable
  `List.insertionSort` with the reflexive order on mtimes.
* Exceptions that the source catches and logs (capture failure, upload
  transport errors) are modelled as explicit outcome values; the functions
  are total, mirroring the fact that no exception escapes those boundaries.
* The HTTP exchange of `upload_batch_to_server` is abstracted by an oracle
  `outcome : String → Option Nat` giving, per path, the HTTP status code the
  server answers with (`none` = transport-level error / exception).
-/

namespace Torcap

/-- One file on disk under the capture root: its path, its `st_mtime`, and its
`st_size` in bytes. -/
structure FsFile where
  path : String
  mtime : Nat
  size : Nat
deriving DecidableEq, Repr

/-- The capture root's contents (the `rglob` enumeration). -/
abbrev FS := List FsFile

/-- Embeds `get_folder_size_mb` (app.py:88-93): sum of the file sizes in
bytes, divided by `1024 * 1024`. -/
def get_folder_size_mb (fs : FS) : ℚ :=
  ((fs.map (fun f => f.size)).sum : ℚ) / (1024 * 1024)

/-- Ordering used by `files.sort(key=lambda f: f.stat().st_mtime)`. -/
def mtimeLE (a b : FsFile) : Prop := a.mtime ≤ b.mtime

instance : DecidableRel mtimeLE := fun a b => Nat.decLe a.mtime b.mtime

instance : IsTotal FsFile mtimeLE := ⟨fun a b => Nat.le_total a.mtime b.mtime⟩

instance : IsTrans FsFile mtimeLE := ⟨fun _ _ _ => Nat.le_trans⟩

/-- Python's stable `sort` by mtime, modelled by the stable insertion sort. -/
def sortByMtime (l : FS) : FS := List.insertionSort mtimeLE l

/-- `path.unlink()`: remove the file with the given path from the root. -/
def unlink (p : String) (fs : FS) : FS := fs.filter (fun f => f.path ≠ p)

/-- `path.exists()` for a path under the root. -/
def pathExists (p : String) (fs : FS) : Bool := fs.any (fun f => f.path = p)

/-- The deletion loop of `rotate_screenshots` (app.py:115-128): walk the
mtime-sorted candidate list, skip protected files, unlink the rest one at a
time, recompute the folder size after each deletion and stop as soon as it is
within the limit.  (A deletion failure is caught and logged in the source; in
the single-threaded model deletion of an existing file always succeeds.) -/
def rotateLoop (maxSizeMb : ℚ) (prot : List String) : FS → FS → FS
  | [], fs => fs
  | c :: rest, fs =>
    if c.path ∈ prot then rotateLoop maxSizeMb prot rest fs
    else if get_folder_size_mb (unlink c.path fs) ≤ maxSizeMb then
      unlink c.path fs
    else rotateLoop maxSizeMb prot rest (unlink c.path fs)

/-- Embeds `rotate_screenshots` (app.py:96-128).  `prot` is the `protected`
set of paths (membership is all that is used of it). -/
def rotate_screenshots (fs : FS) (maxSizeMb : ℚ) (prot : List String) : FS :=
  if maxSizeMb ≤ 0 then fs
  else if get_folder_size_mb fs ≤ maxSizeMb then fs
  else rotateLoop maxSizeMb prot (sortByMtime fs) fs

/-- Result of `upload_batch_to_server`: the returned `successfully_uploaded`
list, the final filesystem, and a ghost log of the paths for which an HTTP
request was actually issued (the source merely logs these; the ghost field
makes "without contacting the server" (app.py:184-187) provable). -/
structure UploadResult where
  confirmed : List String
  requested : List String
  fs : FS
deriving DecidableEq, Repr

/-- The per-candidate loop of `upload_batch_to_server` (app.py:182-226).
`outcome p` is the HTTP status code the server answers with for path `p`
(`none` models a transport-level exception, caught by the `except` clause).
A candidate that no longer exists is appended to the confirmed list without
any request; an existing candidate is posted, and deleted locally exactly
when the status code is 200.  An HTTP rejection (a `some` code other than
200) and a transport error (`none`) differ only in the logged message, so
both fall into the same `else` here. -/
def uploadLoop (outcome : String → Option Nat) : List String → FS → UploadResult
  | [], fs => ⟨[], [], fs⟩
  | p :: rest, fs =>
    if pathExists p fs then
      if outcome p = some 200 then
        let r := uploadLoop outcome rest (unlink p fs)
        ⟨p :: r.confirmed, p :: r.requested, r.fs⟩
      else
        let r := uploadLoop outcome rest fs
        ⟨r.confirmed, p :: r.requested, r.fs⟩
    else
      let r := uploadLoop outcome rest fs
      ⟨p :: r.confirmed, r.requested, r.fs⟩

/-- Embeds `upload_batch_to_server` (app.py:157-226).  The guard mirrors
`if not pending_paths or not server_url or not upload_password: return []`;
the day-key derivation and proxy choice only shape the request payload and
are absorbed into the `outcome` oracle. -/
def upload_batch_to_server (server_url upload_password : String)
    (outcome : String → Option Nat) (pending_paths : List String) (fs : FS) :
    UploadResult :=
  if pending_paths = [] ∨ server_url = "" ∨ upload_password = "" then ⟨[], [], fs⟩
  else uploadLoop outcome pending_paths fs

/-- The configuration fields of `main` that the core loop reads (already
stripped, as in app.py:246-248). -/
structure Config where
  server_url : String
  upload_password : String
  upload_batch_size : Nat
  max_size_mb : ℚ

/-- The driver loop's mutable state: the capture root and the in-memory
`pending_screenshots` list. -/
structure DriverState where
  fs : FS
  pending : List String
deriving DecidableEq, Repr

/-- Environment of one tick of the `while True` loop: the timestamped path the
tick will write to, the metadata of the file a successful capture produces,
whether `mss` succeeds this tick, and the server's response oracle for any
batch dispatched this tick. -/
structure TickInput where
  path : String
  mtime : Nat
  size : Nat
  captureOk : Bool
  outcome : String → Option Nat

/-- Embeds `take_screenshot` (app.py:131-139): on success a file is written at
the tick's path; on any exception the error is logged inside the function and
nothing is written — the function returns normally either way. -/
def take_screenshot (fs : FS) (inp : TickInput) : FS :=
  if inp.captureOk then fs ++ [⟨inp.path, inp.mtime, inp.size⟩] else fs

/-- The filesystem after the retention call of a tick (app.py:280-284): rotate
with `protected = set(pending_screenshots)` where the tick's path has already
been appended to the pending list. -/
def tickRotatedFs (cfg : Config) (inp : TickInput) (s : DriverState) : FS :=
  rotate_screenshots (take_screenshot s.fs inp) cfg.max_size_mb
    (s.pending ++ [inp.path])

/-- `pending_screenshots = [p for p in pending_screenshots if p not in uploaded]`
(app.py:294). -/
def removeConfirmed (pending confirmed : List String) : List String :=
  pending.filter (fun p => decide (p ∉ confirmed))

/-- One iteration of the `while True` loop (app.py:267-296): capture, append
to pending, rotate with the pending set protected, and dispatch a batch when
`len(pending) >= upload_batch_size and server_url and upload_password`.
The second component records the candidate list of the batch attempt, if one
was made. -/
def tick (cfg : Config) (inp : TickInput) (s : DriverState) :
    DriverState × Option (List String) :=
  if (s.pending ++ [inp.path]).length ≥ cfg.upload_batch_size ∧
      cfg.server_url ≠ "" ∧ cfg.upload_password ≠ "" then
    (⟨(upload_batch_to_server cfg.server_url cfg.upload_password inp.outcome
          (s.pending ++ [inp.path]) (tickRotatedFs cfg inp s)).fs,
      removeConfirmed (s.pending ++ [inp.path])
        (upload_batch_to_server cfg.server_url cfg.upload_password inp.outcome
          (s.pending ++ [inp.path]) (tickRotatedFs cfg inp s)).confirmed⟩,
      some (s.pending ++ [inp.path]))
  else
    (⟨tickRotatedFs cfg inp s, s.pending ++ [inp.path]⟩, none)

/-- Iterated ticks of the `Running` state, collecting the candidate lists of
every batch attempt in order. -/
def runTicks (cfg : Config) : List TickInput → DriverState →
    DriverState × List (List String)
  | [], s => (s, [])
  | i :: is, s =>
    ((runTicks cfg is (tick cfg i s).1).1,
      (tick cfg i s).2.toList ++ (runTicks cfg is (tick cfg i s).1).2)

/-- The `except KeyboardInterrupt` drain (app.py:298-311): one final batch
attempt with every remaining pending file, made exactly when
`server_url and upload_password and pending_screenshots`. -/
def interruptFlush (cfg : Config) (outcome : String → Option Nat)
    (s : DriverState) : DriverState × Option (List String) :=
  if cfg.server_url ≠ "" ∧ cfg.upload_password ≠ "" ∧ s.pending ≠ [] then
    (⟨(upload_batch_to_server cfg.server_url cfg.upload_password outcome
          s.pending s.fs).fs,
      removeConfirmed s.pending
        (upload_batch_to_server cfg.server_url cfg.upload_password outcome
          s.pending s.fs).confirmed⟩,
      some s.pending)
  else (s, none)

/-- A whole run: the ticks of the `Running` state followed by the interrupt
drain, with the trace of batch-attempt candidate lists. -/
def driverRun (cfg : Config) (ticks : List TickInput)
    (flushOutcome : String → Option Nat) (s : DriverState) :
    DriverState × List (List String) :=
  ((interruptFlush cfg flushOutcome (runTicks cfg ticks s).1).1,
    (runTicks cfg ticks s).2 ++
      (interruptFlush cfg flushOutcome (runTicks cfg ticks s).1).2.toList)

/-- `folder_path.rglob("*.png")` filter used at startup (app.py:261-264):
the path's final four characters are `.png`. -/
def isPng (p : String) : Bool :=
  decide (p.data.drop (p.data.length - 4) = ['.', 'p', 'n', 'g'])

/-- The startup seeding of `pending_screenshots` (app.py:261-264): every
existing `*.png` file under the root, sorted by mtime ascending. -/
def seedPending (fs : FS) : List String :=
  (sortByMtime (fs.filter (fun f => isPng f.path))).map (fun f => f.path)

/-- `str.split(sep)` of Python for a one-character separator: split on every
occurrence, keeping empty pieces. -/
def splitChar (sep : Char) : List Char → List (List Char)
  | [] => [[]]
  | c :: rest =>
    let r := splitChar sep rest
    if c = sep then [] :: r
    else
      match r with
      | h :: t => (c :: h) :: t
      | [] => [[c]]

/-- Index of the last occurrence of `c`, as in `str.rfind`. -/
def rlastIdx (c : Char) : List Char → Option Nat
  | [] => none
  | a :: as =>
    match rlastIdx c as with
    | some i => some (i + 1)
    | none => if a = c then some 0 else none

/-- `PurePath.stem`: the file name without its last suffix.  pathlib keeps the
name unchanged when the last dot is at index 0 or at the very end. -/
def stem (name : String) : String :=
  let cs := name.data
  match rlastIdx '.' cs with
  | some i => if 0 < i ∧ i < cs.length - 1 then String.mk (cs.take i) else name
  | none => name

/-- Numeric value of a decimal digit character. -/
def digitVal (c : Char) : Nat := c.toNat - 48

/-- The month alternatives of CPython's `_strptime` regex for `%m`, namely
`1[0-2]`, then `0[1-9]`, then `[1-9]`, in the regex engine's preference
order; each entry is a parsed month paired with the unconsumed remainder. -/
def monthCands : List Char → List (Nat × List Char)
  | c1 :: c2 :: rest =>
    (if c1 = '1' ∧ (c2 = '0' ∨ c2 = '1' ∨ c2 = '2') then
      [(10 + digitVal c2, rest)] else []) ++
    (if c1 = '0' ∧ ('1' ≤ c2 ∧ c2 ≤ '9') then [(digitVal c2, rest)] else []) ++
    (if '1' ≤ c1 ∧ c1 ≤ '9' then [(digitVal c1, c2 :: rest)] else [])
  | [c1] => if '1' ≤ c1 ∧ c1 ≤ '9' then [(digitVal c1, [])] else []
  | [] => []

/-- The day alternatives of CPython's `_strptime` regex for `%d`, namely
`3[01]`, then `[12]` followed by a digit, then `0[1-9]`, then `[1-9]`. -/
def dayCands : List Char → List (Nat × List Char)
  | c1 :: c2 :: rest =>
    (if c1 = '3' ∧ (c2 = '0' ∨ c2 = '1') then [(30 + digitVal c2, rest)] else []) ++
    (if (c1 = '1' ∨ c1 = '2') ∧ ('0' ≤ c2 ∧ c2 ≤ '9') then
      [(10 * digitVal c1 + digitVal c2, rest)] else []) ++
    (if c1 = '0' ∧ ('1' ≤ c2 ∧ c2 ≤ '9') then [(digitVal c2, rest)] else []) ++
    (if '1' ≤ c1 ∧ c1 ≤ '9' then [(digitVal c1, c2 :: rest)] else [])
  | [c1] => if '1' ≤ c1 ∧ c1 ≤ '9' then [(digitVal c1, [])] else []
  | [] => []

/-- Backtracking match of `%m%d` against the remainder after the year, with
CPython's requirement that the whole string be consumed: the first
month-alternative for which some day-alternative consumes the rest exactly. -/
def matchMD (cs : List Char) : Option (Nat × Nat) :=
  (monthCands cs).findSome? (fun mc =>
    ((dayCands mc.2).find? (fun dc => dc.2.isEmpty)).map (fun dc => (mc.1, dc.1)))

/-- Gregorian leap-year rule, as in `datetime.date`. -/
def isLeap (y : Nat) : Bool := decide ((y % 4 = 0 ∧ y % 100 ≠ 0) ∨ y % 400 = 0)

/-- Days in a month, as validated by the `datetime` constructor. -/
def daysInMonth (y m : Nat) : Nat :=
  if m = 2 then (if isLeap y then 29 else 28)
  else if m = 4 ∨ m = 6 ∨ m = 9 ∨ m = 11 then 30
  else 31

/-- `datetime.strptime(date_str, "%Y%m%d")` (app.py:148): `%Y` matches exactly
four digits, then `%m%d` must consume the remainder (with regex
backtracking), and the resulting triple must be a real calendar date with
year at least `datetime.MINYEAR = 1`; any failure raises `ValueError`,
modelled as `none`. -/
def parseYmd (cs : List Char) : Option (Nat × Nat × Nat) :=
  match cs with
  | y1 :: y2 :: y3 :: y4 :: rest =>
    if y1.isDigit && y2.isDigit && y3.isDigit && y4.isDigit then
      let y := 1000 * digitVal y1 + 100 * digitVal y2 + 10 * digitVal y3 + digitVal y4
      match matchMD rest with
      | some md =>
        if 1 ≤ y ∧ md.2 ≤ daysInMonth y md.1 then some (y, md.1, md.2) else none
      | none => none
    else none
  | _ => none

/-- Two-digit zero padding of `%d` and `%m`. -/
def pad2 (n : Nat) : String := if n < 10 then "0" ++ Nat.repr n else Nat.repr n

/-- `dt.strftime("%d-%m-%Y")`.  (glibc prints `%Y` without padding; every
year produced by `parseYmd` in the claims has four digits, where the two
agree.) -/
def formatDayKey (y m d : Nat) : String :=
  pad2 d ++ "-" ++ pad2 m ++ "-" ++ Nat.repr y

/-- The filename-embedded date of `get_day_folder_name_for_path`
(app.py:143-151): split the stem on underscores and, when there are at least
two parts, `strptime` the second one; `none` when the split is too short or
parsing raises. -/
def embeddedDate (name : String) : Option (Nat × Nat × Nat) :=
  let parts := splitChar '_' (stem name).data
  if 2 ≤ parts.length then parseYmd (parts.getD 1 []) else none

/-- Embeds `get_day_folder_name_for_path` (app.py:142-154).  `name` is the
path's final component; `mtimeDayKey` stands for
`datetime.fromtimestamp(path.stat().st_mtime).strftime("%d-%m-%Y")`, a value
that depends on the file's mtime and the machine's local time zone and is
therefore an input of the model. -/
def get_day_folder_name_for_path (name : String) (mtimeDayKey : String) : String :=
  match embeddedDate name with
  | some ymd => formatDayKey ymd.1 ymd.2.1 ymd.2.2
  | none => mtimeDayKey

/-- Embeds `validate_identifier` (tor_server.py:175-183): non-empty and free
of both slash characters. -/
def validate_identifier (v : String) : Bool :=
  if v = "" then false
  else !(v.data.contains '/') && !(v.data.contains '\\')

/-- The parts of a `POST /api/upload` request that `api_upload` reads: the
`X-Upload-Password` header (empty string when absent, as `get` defaults),
the optional `username` and `day` form fields, and the filename of the
optional `file` part (a file part with an empty filename is falsy in
werkzeug, like a missing one). -/
structure UploadRequest where
  password : String
  username : Option String
  day : Option String
  file : Option String

/-- Status code and JSON message of an `api_upload` response. -/
structure ApiResponse where
  code : Nat
  message : String
deriving DecidableEq, Repr

/-- Server-side store: the `(username, day, stored filename)` triples written
under `ROOT_FOLDER` so far. -/
abbrev ServerState := List (String × String × String)

/-- The local variable `day` of `api_upload`: the `day` form field, defaulted
to the current UTC date when missing or empty (`if not day:`). -/
def dayOf (req : UploadRequest) (utcToday : String) : String :=
  match req.day with
  | none => utcToday
  | some d => if d = "" then utcToday else d

/-- Embeds `api_upload` (tor_server.py:1410-1439).  `uploadPassword` is the
configured `UPLOAD_PASSWORD`, `utcToday` is
`datetime.utcnow().strftime("%d-%m-%Y")`, and `sec` abstracts werkzeug's
`secure_filename`.  Validation order as in the source: credential, then
username, then day (defaulted to `utcToday` when missing or empty), then
file; every rejection returns before the `mkdir`/`save` calls. -/
def api_upload (uploadPassword utcToday : String) (sec : String → String)
    (req : UploadRequest) (st : ServerState) : ApiResponse × ServerState :=
  if req.password ≠ uploadPassword then (⟨401, "Unauthorized"⟩, st)
  else
    match req.username with
    | none => (⟨400, "invalid username"⟩, st)
    | some u =>
      if u = "" ∨ validate_identifier u = false then (⟨400, "invalid username"⟩, st)
      else
        if validate_identifier (dayOf req utcToday) = false then
          (⟨400, "invalid day"⟩, st)
        else
          match req.file with
          | none => (⟨400, "file is required"⟩, st)
          | some fn =>
            if fn = "" then (⟨400, "file is required"⟩, st)
            else (⟨200, "ok"⟩, st ++ [(u, dayOf req utcToday, sec fn)])

/-- Server behaviour used by the concrete upload example: accept `b`, reject
`c` with a 403, transport-fail anything else. -/
def exampleOutcome : String → Option Nat :=
  fun p => if p = "b" then some 200 else if p = "c" then some 403 else none

theorem mem_unlink {f : FsFile} {p : String} {fs : FS} :
    f ∈ unlink p fs ↔ f ∈ fs ∧ f.path ≠ p := by
  simp [unlink]

theorem unlink_sublist (p : String) (fs : FS) : List.Sublist (unlink p fs) fs :=
  List.filter_sublist fs

theorem rotateLoop_sublist (b : ℚ) (prot : List String) :
    ∀ cands fs, List.Sublist (rotateLoop b prot cands fs) fs := by
  intro cands
  induction cands with
  | nil => intro fs; exact List.Sublist.refl fs
  | cons c rest ih =>
    intro fs
    simp only [rotateLoop]
    split
    · exact ih fs
    · split
      · exact unlink_sublist c.path fs
      · exact (ih (unlink c.path fs)).trans (unlink_sublist c.path fs)

theorem rotateLoop_keeps_protected (b : ℚ) (prot : List String) :
    ∀ cands fs f, f ∈ fs → f.path ∈ prot → f ∈ rotateLoop b prot cands fs := by
  intro cands
  induction cands with
  | nil => intro fs f hf _; exact hf
  | cons c rest ih =>
    intro fs f hf hp
    simp only [rotateLoop]
    split
    · exact ih fs f hf hp
    · rename_i hcp
      have hne : f.path ≠ c.path := fun h => hcp (h ▸ hp)
      have hf' : f ∈ unlink c.path fs := mem_unlink.mpr ⟨hf, hne⟩
      split
      · exact hf'
      · exact ih _ f hf' hp

theorem rotate_screenshots_keeps_protected (fs : FS) (b : ℚ) (prot : List String)
    (f : FsFile) (hf : f ∈ fs) (hp : f.path ∈ prot) :
    f ∈ rotate_screenshots fs b prot := by
  unfold rotate_screenshots
  split
  · exact hf
  · split
    · exact hf
    · exact rotateLoop_keeps_protected b prot (sortByMtime fs) fs f hf hp

theorem pathExists_iff {p : String} {fs : FS} :
    pathExists p fs = true ↔ ∃ f ∈ fs, f.path = p := by
  simp [pathExists]

theorem pathExists_unlink_ne {p q : String} (h : p ≠ q) (fs : FS) :
    pathExists p (unlink q fs) = pathExists p fs := by
  rw [Bool.eq_iff_iff]
  simp only [pathExists_iff]
  constructor
  · rintro ⟨f, hf, rfl⟩
    exact ⟨f, (mem_unlink.mp hf).1, rfl⟩
  · rintro ⟨f, hf, rfl⟩
    exact ⟨f, mem_unlink.mpr ⟨hf, h⟩, rfl⟩

theorem pathExists_unlink_self (p : String) (fs : FS) :
    pathExists p (unlink p fs) = false := by
  rw [Bool.eq_false_iff, Ne, pathExists_iff]
  rintro ⟨f, hf, rfl⟩
  exact (mem_unlink.mp hf).2 rfl

theorem uploadLoop_confirmed_subset (o : String → Option Nat) :
    ∀ pending fs x, x ∈ (uploadLoop o pending fs).confirmed → x ∈ pending := by
  intro pending
  induction pending with
  | nil => intro fs x hx; exact absurd hx (List.not_mem_nil x)
  | cons q rest ih =>
    intro fs x hx
    unfold uploadLoop at hx
    split at hx
    · split at hx
      · rcases List.mem_cons.mp hx with h | h
        · exact h ▸ List.mem_cons_self q rest
        · exact List.mem_cons_of_mem q (ih _ x h)
      · exact List.mem_cons_of_mem q (ih _ x hx)
    · rcases List.mem_cons.mp hx with h | h
      · exact h ▸ List.mem_cons_self q rest
      · exact List.mem_cons_of_mem q (ih _ x h)

theorem uploadLoop_requested_subset (o : String → Option Nat) :
    ∀ pending fs x, x ∈ (uploadLoop o pending fs).requested → x ∈ pending := by
  intro pending
  induction pending with
  | nil => intro fs x hx; exact absurd hx (List.not_mem_nil x)
  | cons q rest ih =>
    intro fs x hx
    unfold uploadLoop at hx
    split at hx
    · split at hx
      · rcases List.mem_cons.mp hx with h | h
        · exact h ▸ List.mem_cons_self q rest
        · exact List.mem_cons_of_mem q (ih _ x h)
      · rcases List.mem_cons.mp hx with h | h
        · exact h ▸ List.mem_cons_self q rest
        · exact List.mem_cons_of_mem q (ih _ x h)
    · exact List.mem_cons_of_mem q (ih _ x hx)

theorem uploadLoop_fs_other (o : String → Option Nat) :
    ∀ pending fs p, p ∉ pending →
      pathExists p (uploadLoop o pending fs).fs = pathExists p fs := by
  intro pending
  induction pending with
  | nil => intro fs p _; rfl
  | cons q rest ih =>
    intro fs p hp
    have hpq : p ≠ q := fun h => hp (h ▸ List.mem_cons_self q rest)
    have hpr : p ∉ rest := fun h => hp (List.mem_cons_of_mem q h)
    unfold uploadLoop
    split
    · split
      · show pathExists p (uploadLoop o rest (unlink q fs)).fs = pathExists p fs
        rw [ih _ p hpr, pathExists_unlink_ne hpq]
      · exact ih _ p hpr
    · exact ih _ p hpr

/-- Per-candidate behaviour of the upload loop on a duplicate-free batch: a
missing file is confirmed without a request and stays missing; an existing
file is posted, and it is confirmed, and deleted from disk, exactly when the
server answers 200. -/
theorem uploadLoop_spec (o : String → Option Nat) :
    ∀ pending fs p, pending.Nodup → p ∈ pending →
      (pathExists p fs = false →
        p ∈ (uploadLoop o pending fs).confirmed ∧
        p ∉ (uploadLoop o pending fs).requested ∧
        pathExists p (uploadLoop o pending fs).fs = false) ∧
      (pathExists p fs = true →
        p ∈ (uploadLoop o pending fs).requested ∧
        (p ∈ (uploadLoop o pending fs).confirmed ↔ o p = some 200) ∧
        (pathExists p (uploadLoop o pending fs).fs = false ↔ o p = some 200)) := by
  intro pending
  induction pending with
  | nil => intro fs p _ hp; exact absurd hp (List.not_mem_nil p)
  | cons q rest ih =>
    intro fs p hnd hp
    have hqrest : q ∉ rest := (List.nodup_cons.mp hnd).1
    have hndr : rest.Nodup := (List.nodup_cons.mp hnd).2
    rcases List.mem_cons.mp hp with rfl | hpr
    · -- the candidate under scrutiny is the head
      constructor
      · intro hex
        unfold uploadLoop
        rw [hex]
        simp only [Bool.false_eq_true, if_false]
        refine ⟨List.mem_cons_self p _, ?_, ?_⟩
        · intro hreq
          exact hqrest (uploadLoop_requested_subset o rest fs p hreq)
        · rw [uploadLoop_fs_other o rest fs p hqrest]
          exact hex
      · intro hex
        unfold uploadLoop
        rw [hex]
        simp only [if_true]
        by_cases ho : o p = some 200
        · rw [if_pos ho]
          refine ⟨List.mem_cons_self p _, ?_, ?_⟩
          · simp only [List.mem_cons, true_or, true_iff]
            exact ho
          · rw [uploadLoop_fs_other o rest _ p hqrest, pathExists_unlink_self]
            simp only [true_iff]
            exact ho
        · rw [if_neg ho]
          refine ⟨List.mem_cons_self p _, ?_, ?_⟩
          · constructor
            · intro hc
              exact absurd (uploadLoop_confirmed_subset o rest fs p hc) hqrest
            · intro h; exact absurd h ho
          · rw [uploadLoop_fs_other o rest fs p hqrest, hex]
            constructor
            · intro h; cases h
            · intro h; exact absurd h ho
    · -- the candidate under scrutiny sits in the tail
      have hpq : p ≠ q := fun h => hqrest (h ▸ hpr)
      have key := ih (if o q = some 200 then unlink q fs else fs) p hndr hpr
      unfold uploadLoop
      by_cases hexq : pathExists q fs = true
      · rw [if_pos hexq]
        by_cases hoq : o q = some 200
        · rw [if_pos hoq]
          have key' := ih (unlink q fs) p hndr hpr
          rw [pathExists_unlink_ne hpq] at key'
          constructor
          · intro hex
            obtain ⟨h1, h2, h3⟩ := key'.1 hex
            exact ⟨List.mem_cons_of_mem q h1,
              fun h => (List.mem_cons.mp h).elim (fun h => hpq h) h2, h3⟩
          · intro hex
            obtain ⟨h1, h2, h3⟩ := key'.2 hex
            refine ⟨List.mem_cons_of_mem q h1, ?_, h3⟩
            rw [← h2]
            simp [List.mem_cons, hpq]
        · rw [if_neg hoq]
          have key' := ih fs p hndr hpr
          constructor
          · intro hex
            obtain ⟨h1, h2, h3⟩ := key'.1 hex
            exact ⟨h1, fun h => (List.mem_cons.mp h).elim (fun h => hpq h) h2, h3⟩
          · intro hex
            obtain ⟨h1, h2, h3⟩ := key'.2 hex
            exact ⟨List.mem_cons_of_mem q h1, h2, h3⟩
      · rw [if_neg hexq]
        have key' := ih fs p hndr hpr
        constructor
        · intro hex
          obtain ⟨h1, h2, h3⟩ := key'.1 hex
          refine ⟨List.mem_cons_of_mem q h1, h2, h3⟩
        · intro hex
          obtain ⟨h1, h2, h3⟩ := key'.2 hex
          refine ⟨h1, ?_, h3⟩
          rw [← h2]
          simp [List.mem_cons, hpq]

/-- When every unprotected file of the root is still in the candidate list,
the deletion loop ends either within the budget or with only protected files
left. -/
theorem rotateLoop_stop (b : ℚ) (prot : List String) :
    ∀ cands fs, (∀ f ∈ fs, f.path ∉ prot → f ∈ cands) →
      get_folder_size_mb (rotateLoop b prot cands fs) ≤ b ∨
      ∀ f ∈ rotateLoop b prot cands fs, f.path ∈ prot := by
  intro cands
  induction cands with
  | nil =>
    intro fs hinv
    right
    intro f hf
    by_contra hp
    exact absurd (hinv f hf hp) (List.not_mem_nil f)
  | cons c rest ih =>
    intro fs hinv
    simp only [rotateLoop]
    split
    · rename_i hcp
      apply ih
      intro f hf hfp
      rcases List.mem_cons.mp (hinv f hf hfp) with h | h
      · exact absurd (by rw [h]; exact hcp) hfp
      · exact h
    · split
      · left; assumption
      · apply ih
        intro f hf hfp
        obtain ⟨hf1, hf2⟩ := mem_unlink.mp hf
        rcases List.mem_cons.mp (hinv f hf1 hfp) with h | h
        · exact absurd (congrArg FsFile.path h) hf2
        · exact h

/-- Oldest-first deletion: along a sorted candidate list that still contains
every unprotected file, any unprotected file the loop deleted is at most as
recent as any unprotected file it kept. -/
theorem rotateLoop_oldest_first (b : ℚ) (prot : List String) :
    ∀ cands fs, List.Pairwise mtimeLE cands →
      (∀ f ∈ fs, f.path ∉ prot → f ∈ cands) →
      (∀ c ∈ cands, c ∈ fs) →
      (fs.map FsFile.path).Nodup →
      (cands.map FsFile.path).Nodup →
      ∀ f g, f ∈ fs → f ∉ rotateLoop b prot cands fs →
        g ∈ rotateLoop b prot cands fs → f.path ∉ prot → g.path ∉ prot →
        f.mtime ≤ g.mtime := by
  intro cands
  induction cands with
  | nil =>
    intro fs _ _ _ _ _ f g hf hfr _ _ _
    exact absurd hf hfr
  | cons c rest ih =>
    intro fs hpair hinv hsub hfsnd hcnd f g hf hfr hgr hfp hgp
    simp only [rotateLoop] at hfr hgr
    have hpairrest : List.Pairwise mtimeLE rest := (List.pairwise_cons.mp hpair).2
    have hcle : ∀ x ∈ rest, mtimeLE c x := (List.pairwise_cons.mp hpair).1
    have hcfs : c ∈ fs := hsub c (List.mem_cons_self c rest)
    have hrestnd : (rest.map FsFile.path).Nodup :=
      (List.nodup_cons.mp (by simpa using hcnd)).2
    have hcnotrest : c.path ∉ rest.map FsFile.path :=
      (List.nodup_cons.mp (by simpa using hcnd)).1
    by_cases hcp : c.path ∈ prot
    · rw [if_pos hcp] at hfr hgr
      refine ih fs hpairrest ?_ ?_ hfsnd hrestnd f g hf hfr hgr hfp hgp
      · intro x hx hxp
        rcases List.mem_cons.mp (hinv x hx hxp) with h | h
        · exact absurd (by rw [h]; exact hcp) hxp
        · exact h
      · intro x hx
        exact hsub x (List.mem_cons_of_mem c hx)
    · rw [if_neg hcp] at hfr hgr
      have hfs'nd : ((unlink c.path fs).map FsFile.path).Nodup :=
        hfsnd.sublist ((unlink_sublist c.path fs).map FsFile.path)
      have hinv' : ∀ x ∈ unlink c.path fs, x.path ∉ prot → x ∈ rest := by
        intro x hx hxp
        obtain ⟨hx1, hx2⟩ := mem_unlink.mp hx
        rcases List.mem_cons.mp (hinv x hx1 hxp) with h | h
        · exact absurd (congrArg FsFile.path h) hx2
        · exact h
      have hsub' : ∀ x ∈ rest, x ∈ unlink c.path fs := by
        intro x hx
        refine mem_unlink.mpr ⟨hsub x (List.mem_cons_of_mem c hx), ?_⟩
        intro hxc
        exact hcnotrest (hxc ▸ List.mem_map_of_mem FsFile.path hx)
      by_cases hstop : get_folder_size_mb (unlink c.path fs) ≤ b
      · rw [if_pos hstop] at hfr hgr
        -- the loop stopped right after deleting c: the deleted file is c itself
        have hfc : f = c := by
          have hfpath : f.path = c.path := by
            by_contra hne
            exact hfr (mem_unlink.mpr ⟨hf, hne⟩)
          exact List.inj_on_of_nodup_map hfsnd hf hcfs hfpath
        have hgrest : g ∈ rest := hinv' g hgr hgp
        rw [hfc]
        exact hcle g hgrest
      · rw [if_neg hstop] at hfr hgr
        by_cases hff : f ∈ unlink c.path fs
        · exact ih (unlink c.path fs) hpairrest hinv' hsub' hfs'nd hrestnd
            f g hff hfr hgr hfp hgp
        · have hfpath : f.path = c.path := by
            by_contra hne
            exact hff (mem_unlink.mpr ⟨hf, hne⟩)
          have hfc : f = c := List.inj_on_of_nodup_map hfsnd hf hcfs hfpath
          have hg' : g ∈ unlink c.path fs :=
            (rotateLoop_sublist b prot rest (unlink c.path fs)).subset hgr
          have hgrest : g ∈ rest := hinv' g hg' hgp
          rw [hfc]
          exact hcle g hgrest

theorem mem_sortByMtime {f : FsFile} {fs : FS} : f ∈ sortByMtime fs ↔ f ∈ fs :=
  List.mem_insertionSort mtimeLE

theorem sortByMtime_pairwise (fs : FS) : List.Pairwise mtimeLE (sortByMtime fs) :=
  List.sorted_insertionSort mtimeLE fs

theorem sortByMtime_perm (fs : FS) : List.Perm (sortByMtime fs) fs :=
  List.perm_insertionSort mtimeLE fs

/-- When every file of the root is protected, the deletion loop deletes
nothing. -/
theorem rotateLoop_all_protected (b : ℚ) (prot : List String) :
    ∀ cands fs, (∀ c ∈ cands, c.path ∈ prot) →
      rotateLoop b prot cands fs = fs := by
  intro cands
  induction cands with
  | nil => intro fs _; rfl
  | cons c rest ih =>
    intro fs h
    simp only [rotateLoop]
    rw [if_pos (h c (List.mem_cons_self c rest))]
    exact ih fs (fun x hx => h x (List.mem_cons_of_mem c hx))

theorem rotate_screenshots_all_protected (fs : FS) (b : ℚ) (prot : List String)
    (h : ∀ f ∈ fs, f.path ∈ prot) : rotate_screenshots fs b prot = fs := by
  unfold rotate_screenshots
  split
  · rfl
  · split
    · rfl
    · exact rotateLoop_all_protected b prot (sortByMtime fs) fs
        (fun c hc => h c (mem_sortByMtime.mp hc))

/-- The candidate list (app.py:112-113) of a tick's batch attempt, when one
is made, is the whole current pending list. -/
theorem tick_snd_eq (cfg : Config) (inp : TickInput) (s : DriverState) :
    (tick cfg inp s).2 =
      if (s.pending ++ [inp.path]).length ≥ cfg.upload_batch_size ∧
          cfg.server_url ≠ "" ∧ cfg.upload_password ≠ "" then
        some (s.pending ++ [inp.path])
      else none := by
  unfold tick
  split <;> rfl

theorem tick_none_pending (cfg : Config) (inp : TickInput) (s : DriverState)
    (h : (tick cfg inp s).2 = none) :
    (tick cfg inp s).1.pending = s.pending ++ [inp.path] := by
  revert h
  unfold tick
  split
  · intro h; cases h
  · intro _; rfl

theorem interruptFlush_snd_eq (cfg : Config) (o : String → Option Nat)
    (s : DriverState) :
    (interruptFlush cfg o s).2 =
      if cfg.server_url ≠ "" ∧ cfg.upload_password ≠ "" ∧ s.pending ≠ [] then
        some s.pending
      else none := by
  unfold interruptFlush
  split <;> rfl

theorem driverRun_snd (cfg : Config) (ticks : List TickInput)
    (fo : String → Option Nat) (s : DriverState) :
    (driverRun cfg ticks fo s).2 =
      (runTicks cfg ticks s).2 ++
        (interruptFlush cfg fo (runTicks cfg ticks s).1).2.toList := rfl

/-- Until the first batch attempt of a run, the pending list only grows at its
end; hence the pending list at entry is an initial segment both of the later
pending list (while no attempt happened) and of the first attempt's candidate
list. -/
theorem runTicks_first_attempt (cfg : Config) :
    ∀ ticks s,
      ((runTicks cfg ticks s).2 = [] →
        s.pending <+: (runTicks cfg ticks s).1.pending) ∧
      (∀ c rest, (runTicks cfg ticks s).2 = c :: rest → s.pending <+: c) := by
  intro ticks
  induction ticks with
  | nil =>
    intro s
    constructor
    · intro _
      exact List.prefix_refl _
    · intro c rest h
      cases h
  | cons i is ih =>
    intro s
    have hstep : s.pending <+: s.pending ++ [i.path] := ⟨[i.path], rfl⟩
    constructor
    · intro h
      unfold runTicks at h ⊢
      rcases htick : (tick cfg i s).2 with _ | c
      · rw [htick] at h
        simp only [Option.toList, List.nil_append] at h ⊢
        have hpend := tick_none_pending cfg i s htick
        exact (hpend ▸ hstep).trans ((ih (tick cfg i s).1).1 h)
      · rw [htick] at h
        cases h
    · intro c rest h
      unfold runTicks at h
      rcases htick : (tick cfg i s).2 with _ | c'
      · rw [htick] at h
        simp only [Option.toList, List.nil_append] at h
        have hpend := tick_none_pending cfg i s htick
        exact (hpend ▸ hstep).trans ((ih (tick cfg i s).1).2 c rest h)
      · rw [htick] at h
        simp only [Option.toList, List.cons_append, List.cons.injEq] at h
        have hc : c' = c := h.1
        have := tick_snd_eq cfg i s
        rw [htick] at this
        have hc' : c' = s.pending ++ [i.path] := by
          by_cases hcond : (s.pending ++ [i.path]).length ≥ cfg.upload_batch_size ∧
              cfg.server_url ≠ "" ∧ cfg.upload_password ≠ ""
          · rw [if_pos hcond] at this
            exact (Option.some.injEq _ _ ▸ this.symm : _).symm
          · rw [if_neg hcond] at this
            cases this
        rw [← hc, hc']
        exact hstep

/-- C1: for every call to `rotate_screenshots` and every path in the
protected set, a file with that path is never deleted by that call, whatever
the folder contents and the budget; and in the driver loop, the tick's
rotation call — which protects exactly the current pending set — keeps every
file whose path is pending. -/
theorem claim_C1_pending_protected_from_rotation :
    (∀ (fs : FS) (b : ℚ) (prot : List String) (f : FsFile),
      f ∈ fs → f.path ∈ prot → f ∈ rotate_screenshots fs b prot) ∧
    (∀ (cfg : Config) (inp : TickInput) (s : DriverState) (f : FsFile),
      f ∈ take_screenshot s.fs inp → f.path ∈ s.pending ++ [inp.path] →
      f ∈ tickRotatedFs cfg inp s) := by
  constructor
  · exact fun fs b prot f hf hp =>
      rotate_screenshots_keeps_protected fs b prot f hf hp
  · exact fun cfg inp s f hf hp =>
      rotate_screenshots_keeps_protected _ _ _ f hf hp

theorem claim_C1_witness :
    (⟨"a", 1, 524288⟩ : FsFile) ∈
      rotate_screenshots [⟨"a", 1, 524288⟩, ⟨"b", 2, 9437184⟩] (1 : ℚ) ["a"] :=
  claim_C1_pending_protected_from_rotation.1 _ 1 ["a"] _ (by decide) (by decide)

/-- C9: after a dispatch, the caller's new pending list is the prior pending
list with exactly the confirmed paths removed, keeping the relative order of
the remainder (it is a subsequence of the prior list whose members are
exactly the non-confirmed prior members). -/
theorem claim_C9_pending_removal :
    ∀ (url pw : String) (o : String → Option Nat) (pending : List String)
      (fs : FS),
      List.Sublist
        (removeConfirmed pending
          (upload_batch_to_server url pw o pending fs).confirmed) pending ∧
      ∀ x, x ∈ removeConfirmed pending
            (upload_batch_to_server url pw o pending fs).confirmed ↔
          x ∈ pending ∧ x ∉ (upload_batch_to_server url pw o pending fs).confirmed := by
  intro url pw o pending fs
  refine ⟨List.filter_sublist pending, ?_⟩
  intro x
  simp [removeConfirmed]

/-- C4, counterexample to "the failed tick's path is not added to the pending
set": one tick whose capture fails (so no file is written) still ends with
the tick's path in the pending list. -/
theorem claim_C4_counterexample :
    (tick ⟨"", "", 10, 100⟩ ⟨"p1", 1, 0, false, fun _ => none⟩
        ⟨[], []⟩).1.pending = ["p1"] ∧
    take_screenshot ([] : FS) ⟨"p1", 1, 0, false, fun _ => none⟩ = [] := by
  exact ⟨by decide, by decide⟩

/-- C4, amended: when capture fails no exception escapes `take_screenshot`
(it is a total function that writes no file) and the driver proceeds; but the
tick's path is appended to the pending set regardless of capture success, so
on a tick without a batch dispatch the failed path ends up pending. -/
theorem claim_C4_capture_failure_amended :
    ∀ (cfg : Config) (inp : TickInput) (s : DriverState),
      inp.captureOk = false →
      take_screenshot s.fs inp = s.fs ∧
      (¬((s.pending ++ [inp.path]).length ≥ cfg.upload_batch_size ∧
          cfg.server_url ≠ "" ∧ cfg.upload_password ≠ "") →
        (tick cfg inp s).1.pending = s.pending ++ [inp.path]) := by
  intro cfg inp s hfail
  constructor
  · simp [take_screenshot, hfail]
  · intro hnd
    unfold tick
    rw [if_neg hnd]

theorem claim_C4_witness :
    take_screenshot ([] : FS) ⟨"p2", 1, 0, false, fun _ => none⟩ = [] ∧
    (tick ⟨"", "", 10, 100⟩ ⟨"p2", 1, 0, false, fun _ => none⟩
        ⟨[], []⟩).1.pending = [] ++ ["p2"] :=
  ⟨(claim_C4_capture_failure_amended ⟨"", "", 10, 100⟩
      ⟨"p2", 1, 0, false, fun _ => none⟩ ⟨[], []⟩ rfl).1,
   (claim_C4_capture_failure_amended ⟨"", "", 10, 100⟩
      ⟨"p2", 1, 0, false, fun _ => none⟩ ⟨[], []⟩ rfl).2 (by decide)⟩

/-- C5: in the Running state a batch is attempted on a tick exactly when the
post-append pending length is at least the batch size and both the endpoint
and the credential are non-empty, and any attempt covers the whole pending
list; on interrupt with valid configuration and a non-empty pending list,
exactly one final attempt covering all remaining pending files is appended
to the run's attempts, regardless of the batch size. -/
theorem claim_C5_trigger_policy :
    (∀ (cfg : Config) (inp : TickInput) (s : DriverState),
      ((tick cfg inp s).2 ≠ none ↔
        ((s.pending ++ [inp.path]).length ≥ cfg.upload_batch_size ∧
          cfg.server_url ≠ "" ∧ cfg.upload_password ≠ "")) ∧
      (∀ c, (tick cfg inp s).2 = some c → c = s.pending ++ [inp.path])) ∧
    (∀ (cfg : Config) (ticks : List TickInput) (fo : String → Option Nat)
        (s : DriverState),
      cfg.server_url ≠ "" → cfg.upload_password ≠ "" →
      (runTicks cfg ticks s).1.pending ≠ [] →
      (driverRun cfg ticks fo s).2 =
        (runTicks cfg ticks s).2 ++ [(runTicks cfg ticks s).1.pending]) := by
  constructor
  · intro cfg inp s
    constructor
    · rw [tick_snd_eq]
      by_cases hcond : (s.pending ++ [inp.path]).length ≥ cfg.upload_batch_size ∧
          cfg.server_url ≠ "" ∧ cfg.upload_password ≠ ""
      · rw [if_pos hcond]
        exact ⟨fun _ => hcond, fun _ => Option.some_ne_none _⟩
      · rw [if_neg hcond]
        exact ⟨fun h => absurd rfl h, fun h => absurd h hcond⟩
    · intro c h
      rw [tick_snd_eq] at h
      split at h
      · exact (Option.some.inj h).symm
      · cases h
  · intro cfg ticks fo s h1 h2 h3
    show (runTicks cfg ticks s).2 ++
        (interruptFlush cfg fo (runTicks cfg ticks s).1).2.toList = _
    rw [interruptFlush_snd_eq, if_pos ⟨h1, h2, h3⟩]
    rfl

theorem claim_C5_witness :
    (tick ⟨"http://x", "pw", 1, 100⟩ ⟨"t1", 1, 0, true, fun _ => none⟩
        ⟨[], []⟩).2 ≠ none ∧
    (driverRun ⟨"http://x", "pw", 10, 100⟩ [] (fun _ => none)
        ⟨[], ["a", "b", "c", "d", "e"]⟩).2 = [["a", "b", "c", "d", "e"]] :=
  ⟨(claim_C5_trigger_policy.1 ⟨"http://x", "pw", 1, 100⟩
      ⟨"t1", 1, 0, true, fun _ => none⟩ ⟨[], []⟩).1.mpr (by decide),
   (claim_C5_trigger_policy.2 ⟨"http://x", "pw", 10, 100⟩ [] (fun _ => none)
      ⟨[], ["a", "b", "c", "d", "e"]⟩ (by decide) (by decide) (by decide)).trans
     (by decide)⟩

/-- C3, counterexample to the bounded-overshoot claim: with the budget set to
half a megabyte and three one-megabyte captures — all pending, hence all
protected, exactly as the driver calls retention — every tick's rotation
deletes nothing, and after the third tick the root holds 3 MB, which exceeds
the budget by more than one file's size (every file is 1 MB). -/
theorem claim_C3_counterexample :
    (runTicks ⟨"", "", 10, 1/2⟩
        [⟨"s1", 1, 1048576, true, fun _ => none⟩,
         ⟨"s2", 2, 1048576, true, fun _ => none⟩,
         ⟨"s3", 3, 1048576, true, fun _ => none⟩] ⟨[], []⟩).1.fs =
      [⟨"s1", 1, 1048576⟩, ⟨"s2", 2, 1048576⟩, ⟨"s3", 3, 1048576⟩] ∧
    get_folder_size_mb
      [⟨"s1", 1, 1048576⟩, ⟨"s2", 2, 1048576⟩, ⟨"s3", 3, 1048576⟩] = 3 ∧
    (1 : ℚ) / 2 + 1 < 3 := by
  have hrot : ∀ (inp : TickInput) (s : DriverState),
      (∀ f ∈ take_screenshot s.fs inp, f.path ∈ s.pending ++ [inp.path]) →
      tickRotatedFs ⟨"", "", 10, 1/2⟩ inp s = take_screenshot s.fs inp :=
    fun inp s h => rotate_screenshots_all_protected _ _ _ h
  have htick : ∀ (inp : TickInput) (s : DriverState),
      (∀ f ∈ take_screenshot s.fs inp, f.path ∈ s.pending ++ [inp.path]) →
      tick ⟨"", "", 10, 1/2⟩ inp s =
        (⟨take_screenshot s.fs inp, s.pending ++ [inp.path]⟩, none) := by
    intro inp s h
    unfold tick
    rw [if_neg (fun hc => hc.2.1 rfl), hrot inp s h]
  have h1 := htick ⟨"s1", 1, 1048576, true, fun _ => none⟩ ⟨[], []⟩ (by decide)
  have h2 := htick ⟨"s2", 2, 1048576, true, fun _ => none⟩
    ⟨[⟨"s1", 1, 1048576⟩], ["s1"]⟩ (by decide)
  have h3 := htick ⟨"s3", 3, 1048576, true, fun _ => none⟩
    ⟨[⟨"s1", 1, 1048576⟩, ⟨"s2", 2, 1048576⟩], ["s1", "s2"]⟩ (by decide)
  rw [show take_screenshot ([] : FS) ⟨"s1", 1, 1048576, true, fun _ => none⟩ =
    [⟨"s1", 1, 1048576⟩] from rfl] at h1
  rw [show take_screenshot [⟨"s1", 1, 1048576⟩]
      ⟨"s2", 2, 1048576, true, fun _ => none⟩ =
    [⟨"s1", 1, 1048576⟩, ⟨"s2", 2, 1048576⟩] from rfl] at h2
  rw [show take_screenshot [⟨"s1", 1, 1048576⟩, ⟨"s2", 2, 1048576⟩]
      ⟨"s3", 3, 1048576, true, fun _ => none⟩ =
    [⟨"s1", 1, 1048576⟩, ⟨"s2", 2, 1048576⟩, ⟨"s3", 3, 1048576⟩] from rfl] at h3
  refine ⟨?_, ?_, by norm_num⟩
  · simp only [runTicks, h1, h2, h3, List.nil_append, List.cons_append]
  · simp only [get_folder_size_mb, List.map_cons, List.map_nil, List.sum_cons,
      List.sum_nil]
    norm_num

/-- C3, amended: with a positive budget, `rotate_screenshots` ends either
with the root within the budget or with only protected files remaining (the
overshoot is unbounded when protected — in the driver, pending — files fill
the root); with budget at most 0 it is an unconditional no-op. -/
theorem claim_C3_amended_rotation_bound :
    ∀ (fs : FS) (b : ℚ) (prot : List String),
      (b ≤ 0 → rotate_screenshots fs b prot = fs) ∧
      (0 < b →
        get_folder_size_mb (rotate_screenshots fs b prot) ≤ b ∨
        ∀ f ∈ rotate_screenshots fs b prot, f.path ∈ prot) := by
  intro fs b prot
  constructor
  · intro hb
    unfold rotate_screenshots
    rw [if_pos hb]
  · intro hb
    unfold rotate_screenshots
    rw [if_neg (not_le.mpr hb)]
    by_cases hsz : get_folder_size_mb fs ≤ b
    · rw [if_pos hsz]
      left
      exact hsz
    · rw [if_neg hsz]
      exact rotateLoop_stop b prot (sortByMtime fs) fs
        (fun f hf _ => mem_sortByMtime.mpr hf)

theorem claim_C3_witness :
    rotate_screenshots [⟨"a", 1, 1048576⟩] (0 : ℚ) ["x"] = [⟨"a", 1, 1048576⟩] ∧
    (get_folder_size_mb (rotate_screenshots [⟨"a", 1, 1048576⟩] (2 : ℚ) []) ≤ 2 ∨
      ∀ f ∈ rotate_screenshots [⟨"a", 1, 1048576⟩] (2 : ℚ) [],
        f.path ∈ ([] : List String)) :=
  ⟨(claim_C3_amended_rotation_bound [⟨"a", 1, 1048576⟩] 0 ["x"]).1 le_rfl,
   (claim_C3_amended_rotation_bound [⟨"a", 1, 1048576⟩] 2 []).2 (by norm_num)⟩

/-- C6: over-budget rotation walks the files oldest-first, deletes only
unprotected candidates, recomputes the size after each deletion, and stops as
soon as the root is within budget or no candidate is left; concretely, with a
1 MB budget and three unprotected 0.5 MB files — in either storage order —
exactly the oldest file is deleted.  The general parts: the surviving files
are a subsequence of the root, any deleted unprotected file is no newer than
any surviving unprotected one, and with a positive budget the loop ends
within budget or with only protected files left. -/
theorem claim_C6_oldest_first_rotation :
    (rotate_screenshots
        [⟨"a", 1, 524288⟩, ⟨"b", 2, 524288⟩, ⟨"c", 3, 524288⟩] 1 [] =
      [⟨"b", 2, 524288⟩, ⟨"c", 3, 524288⟩]) ∧
    (rotate_screenshots
        [⟨"c", 3, 524288⟩, ⟨"a", 1, 524288⟩, ⟨"b", 2, 524288⟩] 1 [] =
      [⟨"c", 3, 524288⟩, ⟨"b", 2, 524288⟩]) ∧
    (∀ (fs : FS) (b : ℚ) (prot : List String),
      List.Sublist (rotate_screenshots fs b prot) fs) ∧
    (∀ (fs : FS) (b : ℚ) (prot : List String) (f g : FsFile),
      (fs.map FsFile.path).Nodup →
      f ∈ fs → f ∉ rotate_screenshots fs b prot →
      g ∈ rotate_screenshots fs b prot →
      f.path ∉ prot → g.path ∉ prot → f.mtime ≤ g.mtime) ∧
    (∀ (fs : FS) (b : ℚ) (prot : List String), 0 < b →
      get_folder_size_mb (rotate_screenshots fs b prot) ≤ b ∨
      ∀ f ∈ rotate_screenshots fs b prot, f.path ∈ prot) := by
  refine ⟨?_, ?_, ?_, ?_, ?_⟩
  · have hu : unlink (FsFile.path ⟨"a", 1, 524288⟩)
        [⟨"a", 1, 524288⟩, ⟨"b", 2, 524288⟩, ⟨"c", 3, 524288⟩] =
        [⟨"b", 2, 524288⟩, ⟨"c", 3, 524288⟩] := by decide
    unfold rotate_screenshots
    rw [if_neg (by norm_num), if_neg ?hsz1]
    case hsz1 =>
      simp only [get_folder_size_mb, List.map_cons, List.map_nil,
        List.sum_cons, List.sum_nil]
      norm_num
    rw [show sortByMtime [⟨"a", 1, 524288⟩, ⟨"b", 2, 524288⟩, ⟨"c", 3, 524288⟩] =
      [⟨"a", 1, 524288⟩, ⟨"b", 2, 524288⟩, ⟨"c", 3, 524288⟩] from by decide]
    simp only [rotateLoop]
    rw [if_neg (by decide), hu, if_pos ?hsz2]
    case hsz2 =>
      simp only [get_folder_size_mb, List.map_cons, List.map_nil,
        List.sum_cons, List.sum_nil]
      norm_num
  · have hu : unlink (FsFile.path ⟨"a", 1, 524288⟩)
        [⟨"c", 3, 524288⟩, ⟨"a", 1, 524288⟩, ⟨"b", 2, 524288⟩] =
        [⟨"c", 3, 524288⟩, ⟨"b", 2, 524288⟩] := by decide
    unfold rotate_screenshots
    rw [if_neg (by norm_num), if_neg ?hsz3]
    case hsz3 =>
      simp only [get_folder_size_mb, List.map_cons, List.map_nil,
        List.sum_cons, List.sum_nil]
      norm_num
    rw [show sortByMtime [⟨"c", 3, 524288⟩, ⟨"a", 1, 524288⟩, ⟨"b", 2, 524288⟩] =
      [⟨"a", 1, 524288⟩, ⟨"b", 2, 524288⟩, ⟨"c", 3, 524288⟩] from by decide]
    simp only [rotateLoop]
    rw [if_neg (by decide), hu, if_pos ?hsz4]
    case hsz4 =>
      simp only [get_folder_size_mb, List.map_cons, List.map_nil,
        List.sum_cons, List.sum_nil]
      norm_num
  · intro fs b prot
    unfold rotate_screenshots
    split
    · exact List.Sublist.refl fs
    · split
      · exact List.Sublist.refl fs
      · exact rotateLoop_sublist b prot (sortByMtime fs) fs
  · intro fs b prot f g hnd hf hfr hgr hfp hgp
    unfold rotate_screenshots at hfr hgr
    by_cases h0 : b ≤ 0
    · rw [if_pos h0] at hfr
      exact absurd hf hfr
    · rw [if_neg h0] at hfr hgr
      by_cases hsz : get_folder_size_mb fs ≤ b
      · rw [if_pos hsz] at hfr
        exact absurd hf hfr
      · rw [if_neg hsz] at hfr hgr
        refine rotateLoop_oldest_first b prot (sortByMtime fs) fs
          (sortByMtime_pairwise fs)
          (fun x hx _ => mem_sortByMtime.mpr hx)
          (fun x hx => mem_sortByMtime.mp hx)
          hnd ?_ f g hf hfr hgr hfp hgp
        exact (((sortByMtime_perm fs).map FsFile.path).nodup_iff).mpr hnd
  · intro fs b prot hb
    unfold rotate_screenshots
    rw [if_neg (not_le.mpr hb)]
    by_cases hsz : get_folder_size_mb fs ≤ b
    · rw [if_pos hsz]
      left
      exact hsz
    · rw [if_neg hsz]
      exact rotateLoop_stop b prot (sortByMtime fs) fs
        (fun f hf _ => mem_sortByMtime.mpr hf)

theorem claim_C6_witness :
    (⟨"a", 1, 524288⟩ : FsFile).mtime ≤ (⟨"b", 2, 524288⟩ : FsFile).mtime ∧
    (get_folder_size_mb
        (rotate_screenshots [⟨"a", 1, 524288⟩] (2 : ℚ) []) ≤ 2 ∨
      ∀ f ∈ rotate_screenshots [⟨"a", 1, 524288⟩] (2 : ℚ) [],
        f.path ∈ ([] : List String)) :=
  ⟨claim_C6_oldest_first_rotation.2.2.2.1
      [⟨"a", 1, 524288⟩, ⟨"b", 2, 524288⟩, ⟨"c", 3, 524288⟩] 1 []
      ⟨"a", 1, 524288⟩ ⟨"b", 2, 524288⟩ (by decide) (by decide)
      (by rw [claim_C6_oldest_first_rotation.1]; decide)
      (by rw [claim_C6_oldest_first_rotation.1]; decide)
      (by decide) (by decide),
   claim_C6_oldest_first_rotation.2.2.2.2 [⟨"a", 1, 524288⟩] 2 [] (by norm_num)⟩

/-- C7: at startup the pending set is seeded with exactly the png files under
the root, in ascending mtime order, and whatever the following ticks do, the
first batch attempt of the run (tick-triggered or interrupt flush) includes
the whole seeded list as an initial segment of its candidates. -/
theorem claim_C7_restart_recovery :
    ∀ (fs0 : FS) (cfg : Config) (ticks : List TickInput)
      (fo : String → Option Nat),
      (∀ f ∈ fs0, isPng f.path = true → f.path ∈ seedPending fs0) ∧
      (∀ p ∈ seedPending fs0, ∃ f, f ∈ fs0 ∧ isPng f.path = true ∧ f.path = p) ∧
      List.Pairwise mtimeLE (sortByMtime (fs0.filter (fun f => isPng f.path))) ∧
      (∀ c rest,
        (driverRun cfg ticks fo ⟨fs0, seedPending fs0⟩).2 = c :: rest →
        seedPending fs0 <+: c) := by
  intro fs0 cfg ticks fo
  refine ⟨?_, ?_, sortByMtime_pairwise _, ?_⟩
  · intro f hf hpng
    unfold seedPending
    exact List.mem_map_of_mem _ (mem_sortByMtime.mpr (List.mem_filter.mpr ⟨hf, hpng⟩))
  · intro p hp
    unfold seedPending at hp
    obtain ⟨f, hf, rfl⟩ := List.mem_map.mp hp
    obtain ⟨h1, h2⟩ := List.mem_filter.mp (mem_sortByMtime.mp hf)
    exact ⟨f, h1, h2, rfl⟩
  · intro c rest h
    rw [driverRun_snd] at h
    rcases hR : (runTicks cfg ticks ⟨fs0, seedPending fs0⟩).2 with _ | ⟨c', rest'⟩
    · rw [hR, List.nil_append] at h
      rcases hfl : (interruptFlush cfg fo
          (runTicks cfg ticks ⟨fs0, seedPending fs0⟩).1).2 with _ | x
      · rw [hfl] at h
        simp at h
      · rw [hfl] at h
        simp only [Option.toList_some] at h
        have hcx : x = c := (List.cons.inj h).1
        have hx : x = (runTicks cfg ticks ⟨fs0, seedPending fs0⟩).1.pending := by
          have heq := interruptFlush_snd_eq cfg fo
            (runTicks cfg ticks ⟨fs0, seedPending fs0⟩).1
          rw [hfl] at heq
          split at heq
          · exact Option.some.inj heq
          · cases heq
        have hpre := (runTicks_first_attempt cfg ticks ⟨fs0, seedPending fs0⟩).1 hR
        rw [← hcx, hx]
        exact hpre
    · rw [hR] at h
      simp only [List.cons_append] at h
      have hc : c' = c := (List.cons.inj h).1
      have := (runTicks_first_attempt cfg ticks ⟨fs0, seedPending fs0⟩).2 c' rest' hR
      rw [← hc]
      exact this

theorem claim_C7_witness :
    seedPending [⟨"a.png", 2, 5⟩, ⟨"b.png", 1, 5⟩, ⟨"c.txt", 0, 5⟩] =
      ["b.png", "a.png"] ∧
    seedPending [⟨"a.png", 2, 5⟩, ⟨"b.png", 1, 5⟩, ⟨"c.txt", 0, 5⟩] <+:
      ["b.png", "a.png"] :=
  ⟨by decide,
   (claim_C7_restart_recovery [⟨"a.png", 2, 5⟩, ⟨"b.png", 1, 5⟩, ⟨"c.txt", 0, 5⟩]
      ⟨"http://x", "pw", 10, 100⟩ [] (fun _ => none)).2.2.2
    ["b.png", "a.png"] [] (by decide)⟩

/-- C2: for a candidate of a dispatched batch (valid configuration,
duplicate-free batch): a candidate that no longer exists on disk is put in
the returned confirmed list without any server request; an existing candidate
is posted and is confirmed exactly when the server answers HTTP 200, and it
is removed from disk exactly when it is confirmed — on a non-success status
or a transport error it stays on disk and outside the confirmed list. -/
theorem claim_C2_at_most_once_effective :
    ∀ (url pw : String) (o : String → Option Nat) (pending : List String)
      (fs : FS) (p : String),
      url ≠ "" → pw ≠ "" → pending.Nodup → p ∈ pending →
      (pathExists p fs = false →
        p ∈ (upload_batch_to_server url pw o pending fs).confirmed ∧
        p ∉ (upload_batch_to_server url pw o pending fs).requested) ∧
      (pathExists p fs = true →
        p ∈ (upload_batch_to_server url pw o pending fs).requested ∧
        (p ∈ (upload_batch_to_server url pw o pending fs).confirmed ↔
          o p = some 200) ∧
        (pathExists p (upload_batch_to_server url pw o pending fs).fs = false ↔
          o p = some 200)) := by
  intro url pw o pending fs p hurl hpw hnd hp
  have hguard : ¬(pending = [] ∨ url = "" ∨ pw = "") := by
    push_neg
    exact ⟨List.ne_nil_of_mem hp, hurl, hpw⟩
  unfold upload_batch_to_server
  rw [if_neg hguard]
  have key := uploadLoop_spec o pending fs p hnd hp
  exact ⟨fun h => ⟨(key.1 h).1, (key.1 h).2.1⟩, key.2⟩

theorem claim_C2_witness :
    ("a" ∈ (upload_batch_to_server "u" "w" exampleOutcome ["a", "b", "c"]
        [⟨"b", 1, 5⟩, ⟨"c", 2, 5⟩]).confirmed ∧
      "a" ∉ (upload_batch_to_server "u" "w" exampleOutcome ["a", "b", "c"]
        [⟨"b", 1, 5⟩, ⟨"c", 2, 5⟩]).requested) ∧
    ("b" ∈ (upload_batch_to_server "u" "w" exampleOutcome ["a", "b", "c"]
        [⟨"b", 1, 5⟩, ⟨"c", 2, 5⟩]).confirmed ↔ exampleOutcome "b" = some 200) ∧
    (pathExists "c" (upload_batch_to_server "u" "w" exampleOutcome ["a", "b", "c"]
        [⟨"b", 1, 5⟩, ⟨"c", 2, 5⟩]).fs = false ↔ exampleOutcome "c" = some 200) :=
  ⟨(claim_C2_at_most_once_effective "u" "w" exampleOutcome ["a", "b", "c"]
      [⟨"b", 1, 5⟩, ⟨"c", 2, 5⟩] "a" (by decide) (by decide) (by decide)
      (by decide)).1 (by decide),
   ((claim_C2_at_most_once_effective "u" "w" exampleOutcome ["a", "b", "c"]
      [⟨"b", 1, 5⟩, ⟨"c", 2, 5⟩] "b" (by decide) (by decide) (by decide)
      (by decide)).2 (by decide)).2.1,
   ((claim_C2_at_most_once_effective "u" "w" exampleOutcome ["a", "b", "c"]
      [⟨"b", 1, 5⟩, ⟨"c", 2, 5⟩] "c" (by decide) (by decide) (by decide)
      (by decide)).2 (by decide)).2.2⟩

/-- C8: `screenshot_20240115_093000.png` yields the day key `15-01-2024`;
whenever the filename's embedded date cannot be parsed — too few underscore
parts, a string `strptime` rejects, or a non-existent calendar date — the
day key is the one derived from the file's modification time.  Two concrete
unparseable cases: `20240230` (February 30th fails the calendar check) and
`20241301` (no month alternative fits, even with regex backtracking). -/
theorem claim_C8_day_key_derivation :
    (∀ fb, get_day_folder_name_for_path "screenshot_20240115_093000.png" fb =
      "15-01-2024") ∧
    (∀ name fb, embeddedDate name = none →
      get_day_folder_name_for_path name fb = fb) ∧
    (∀ fb, get_day_folder_name_for_path "screenshot_20240230_093000.png" fb = fb) ∧
    (∀ fb, get_day_folder_name_for_path "screenshot_20241301_093000.png" fb = fb) := by
  refine ⟨?_, ?_, ?_, ?_⟩
  · intro fb
    rfl
  · intro name fb h
    unfold get_day_folder_name_for_path
    rw [h]
  · intro fb
    rfl
  · intro fb
    rfl

theorem claim_C8_witness :
    embeddedDate "corrupt.png" = none ∧
    get_day_folder_name_for_path "corrupt.png" "07-10-2026" = "07-10-2026" :=
  ⟨rfl, claim_C8_day_key_derivation.2.1 "corrupt.png" "07-10-2026" rfl⟩

/-- C10: `api_upload` validates in the fixed order credential, username, day,
file — a bad credential yields 401 whatever the rest, a bad username yields
400 `invalid username` whatever day and file, and so on; every rejection
leaves the server store untouched, and a file is stored (exactly one entry,
under the request's username and its possibly-defaulted day) only on a 200,
in which case both the username and the stored day passed
`validate_identifier` — non-empty and free of `/` and `\`. -/
theorem claim_C10_ingest_validation :
    (∀ v, validate_identifier v = true ↔
      (v ≠ "" ∧ ¬ '/' ∈ v.data ∧ ¬ '\\' ∈ v.data)) ∧
    (∀ (pw t : String) (sec : String → String) (req : UploadRequest)
        (st : ServerState),
      (req.password ≠ pw →
        api_upload pw t sec req st = (⟨401, "Unauthorized"⟩, st)) ∧
      (req.password = pw →
        (∀ u, req.username = some u → validate_identifier u = false) →
        api_upload pw t sec req st = (⟨400, "invalid username"⟩, st)) ∧
      (∀ u, req.password = pw → req.username = some u →
        validate_identifier u = true →
        validate_identifier (dayOf req t) = false →
        api_upload pw t sec req st = (⟨400, "invalid day"⟩, st)) ∧
      (∀ u, req.password = pw → req.username = some u →
        validate_identifier u = true →
        validate_identifier (dayOf req t) = true →
        (req.file = none ∨ req.file = some "") →
        api_upload pw t sec req st = (⟨400, "file is required"⟩, st)) ∧
      ((api_upload pw t sec req st).1.code ≠ 200 →
        (api_upload pw t sec req st).2 = st) ∧
      ((api_upload pw t sec req st).1.code = 200 →
        ∃ u fn, req.username = some u ∧ req.file = some fn ∧
          validate_identifier u = true ∧
          validate_identifier (dayOf req t) = true ∧
          (api_upload pw t sec req st).2 = st ++ [(u, dayOf req t, sec fn)])) := by
  constructor
  · intro v
    unfold validate_identifier
    by_cases hv : v = ""
    · rw [if_pos hv]
      simp [hv]
    · rw [if_neg hv]
      simp [hv, List.contains_iff_exists_mem_beq]
  · intro pw t sec req st
    refine ⟨?_, ?_, ?_, ?_, ?_, ?_⟩
    · intro h
      unfold api_upload
      rw [if_pos h]
    · intro hpw hu
      unfold api_upload
      rw [if_neg (fun h => h hpw)]
      rcases hun : req.username with _ | u
      · rfl
      · simp only [hun]
        rw [if_pos (Or.inr (hu u hun))]
    · intro u hpw hun hvu hvd
      unfold api_upload
      rw [if_neg (fun h => h hpw)]
      simp only [hun]
      have hcond : ¬(u = "" ∨ validate_identifier u = false) := by
        rintro (h | h)
        · rw [h] at hvu
          simp [validate_identifier] at hvu
        · rw [hvu] at h
          cases h
      rw [if_neg hcond, if_pos hvd]
    · intro u hpw hun hvu hvd hfile
      unfold api_upload
      rw [if_neg (fun h => h hpw)]
      simp only [hun]
      have hcond : ¬(u = "" ∨ validate_identifier u = false) := by
        rintro (h | h)
        · rw [h] at hvu
          simp [validate_identifier] at hvu
        · rw [hvu] at h
          cases h
      have hvd' : ¬ validate_identifier (dayOf req t) = false := by
        rw [hvd]
        exact fun h => Bool.noConfusion h
      rw [if_neg hcond, if_neg hvd']
      rcases hfile with h | h
      · simp only [h]
      · simp only [h]
        rw [if_pos trivial]
    · intro h
      revert h
      unfold api_upload
      split
      · intro _; rfl
      · split
        · intro _; rfl
        · split
          · intro _; rfl
          · split
            · intro _; rfl
            · split
              · intro _; rfl
              · split
                · intro _; rfl
                · intro h; exact absurd rfl h
    · intro h
      revert h
      unfold api_upload
      split
      · intro h; simp at h
      · split
        · intro h; simp at h
        · rename_i u hun
          split
          · intro h; simp at h
          · rename_i hucond
            split
            · intro h; simp at h
            · rename_i hdaycond
              split
              · intro h; simp at h
              · rename_i fn hfn
                split
                · intro h; simp at h
                · rename_i hfnne
                  intro _
                  have hvu : validate_identifier u = true := by
                    cases hb : validate_identifier u
                    · exact absurd (Or.inr hb) hucond
                    · rfl
                  have hvd : validate_identifier (dayOf req t) = true := by
                    cases hb : validate_identifier (dayOf req t)
                    · exact absurd hb hdaycond
                    · rfl
                  exact ⟨u, fn, hun, hfn, hvu, hvd, rfl⟩

theorem claim_C10_witness :
    api_upload "pw" "07-10-2026" id ⟨"wrong", some "alice", some "d", some "f.png"⟩
      [] = (⟨401, "Unauthorized"⟩, []) ∧
    api_upload "pw" "07-10-2026" id ⟨"pw", some "a/b", some "d", some "f.png"⟩
      [] = (⟨400, "invalid username"⟩, []) ∧
    api_upload "pw" "07-10-2026" id ⟨"pw", some "alice", some "d/e", some "f.png"⟩
      [] = (⟨400, "invalid day"⟩, []) :=
  ⟨(claim_C10_ingest_validation.2 "pw" "07-10-2026" id
      ⟨"wrong", some "alice", some "d", some "f.png"⟩ []).1 (by decide),
   (claim_C10_ingest_validation.2 "pw" "07-10-2026" id
      ⟨"pw", some "a/b", some "d", some "f.png"⟩ []).2.1 rfl
     (fun u h => by cases h; decide),
   (claim_C10_ingest_validation.2 "pw" "07-10-2026" id
      ⟨"pw", some "alice", some "d/e", some "f.png"⟩ []).2.2.1 "alice" rfl
     (by decide) rfl (by decide)⟩

end Torcap
